import Mathlib

/-
  Verification of the budget repository's ledger view logic.

  The repository ships a React frontend (src/frontend and the unnamed
  source parts). The merged ledger page (src/unnamed/part_006) merges
  actual transactions with forecast rows, sorts them, and computes a
  running balance; the legacy ledger page
  (src/frontend/src/pages/Ledger.tsx) computes its balance map over a
  (posted_date, created_at) sort. The import modal
  (src/frontend/src/components/ImportModal.tsx) commits selected new
  rows plus explicitly accepted duplicates. Currency formatting and
  parsing live in the utils (src/unnamed/part_001, format.ts).

  JavaScript specifics are embedded as follows: numbers are Int (cents)
  or Rat (parseFloat values, exact in the exactly-representable range);
  String.prototype.localeCompare is modelled as code-point string
  comparison (exact for the ISO date strings the comparators receive);
  Array.prototype.sort is modelled as a stable insertion sort, which
  agrees with any stable sort for a consistent comparator; JS Set
  membership is modelled by list membership.
-/

/-- Transaction row as used by the ledger pages. Only the fields read by
the modelled operations are included ('Transaction' in api/client has
further fields the ledger logic never reads). -/
structure Tx where
  id : Nat
  posted_date : String
  created_at : String
  amount_cents : Int
  transaction_type : String
  display_name : Option String
  payee_raw : Option String
deriving DecidableEq

/-- TxType from part_006 line 24. -/
inductive TxType where
  | debit
  | credit
  | transfer
deriving DecidableEq

/-- deriveTxType, part_006 lines 28-31. -/
def deriveTxType (tx : Tx) : TxType :=
  if tx.transaction_type = "transfer" then .transfer
  else if tx.amount_cents < 0 then .debit else .credit

/-- applyTypeSign, part_006 lines 33-37. -/
def applyTypeSign (ty : TxType) (cents : Int) : Int :=
  match ty with
  | .debit => if cents > 0 then -cents else cents
  | .credit => if cents < 0 then -cents else cents
  | .transfer => cents

/-- Amount handleCreate sends to the create mutation, part_006 line 241:
amount_cents: applyTypeSign(data.type, data.amount_cents). -/
def createSentAmount (ty : TxType) (cents : Int) : Int :=
  applyTypeSign ty cents

/-- JS truthiness of an optional string: null/undefined and the empty
string are falsy. -/
def strTruthy (o : Option String) : Bool :=
  match o with
  | none => false
  | some s => s ≠ ""

/-- Membership in the existingPayees set built in part_006 lines 137-141:
for each transaction, display_name and payee_raw are added when truthy. -/
def existingPayeesHas (txs : List Tx) (name : String) : Bool :=
  txs.any (fun t =>
    (strTruthy t.display_name && t.display_name == some name) ||
    (strTruthy t.payee_raw && t.payee_raw == some name))

/-- Filter predicate of part_006 lines 143-145:
keep f when !f.display_name || !existingPayees.has(f.display_name). -/
def forecastVisible (txs : List Tx) (f : Tx) : Bool :=
  match f.display_name with
  | none => true
  | some n => if n = "" then true else ! existingPayeesHas txs n

/-- visibleForecasts, part_006 lines 143-145. -/
def visibleForecasts (txs fs : List Tx) : List Tx :=
  fs.filter (forecastVisible txs)

/-- The merged list of part_006 line 146:
[...transactions, ...visibleForecasts]. -/
def mergedLedger (txs fs : List Tx) : List Tx :=
  txs ++ visibleForecasts txs fs

/-- Lexicographic code-point comparison of character lists (shorter
prefix first), the order underlying the string comparisons below. -/
def charListLt : List Char → List Char → Bool
  | [], [] => false
  | [], _ :: _ => true
  | _ :: _, [] => false
  | a :: as, b :: bs => if a < b then true else if b < a then false else charListLt as bs

/-- Code-point order on strings. -/
def strLt (a b : String) : Bool :=
  charListLt a.data b.data

/-- Sign of String.prototype.localeCompare, modelled as code-point
comparison (exact on the ISO-8601 date and timestamp strings the ledger
comparators receive). -/
def strCmp (a b : String) : Int :=
  if strLt a b then -1 else if strLt b a then 1 else 0

/-- Forecast tie-break flag of part_006 lines 154-155:
1 for a forecast row, else 0. -/
def forecastFlag (t : Tx) : Int :=
  if t.transaction_type == "forecast" then 1 else 0

/-- Comparator of part_006 lines 147-158 for sortField = posted_date and
sortDir = asc (the only configuration in which the running balance is
shown): date order, with forecasts after actuals on the same date. -/
def ledgerCmp (a b : Tx) : Int :=
  let c := strCmp a.posted_date b.posted_date
  if c = 0 then forecastFlag a - forecastFlag b else c

/-- Comparator of the legacy Ledger.tsx balance map (lines 154-156):
a.posted_date.localeCompare(b.posted_date) || a.created_at.localeCompare(b.created_at). -/
def byDateCmp (a b : Tx) : Int :=
  let c := strCmp a.posted_date b.posted_date
  if c = 0 then strCmp a.created_at b.created_at else c

/-- Array.prototype.sort with a JS comparator, modelled as a stable
insertion sort on the relation (c a b <= 0). -/
def jsSort (c : Tx → Tx → Int) (l : List Tx) : List Tx :=
  @List.insertionSort Tx (fun a b => c a b ≤ 0) (fun a b => Int.decLe _ _) l

/-- The byDate list of the legacy Ledger.tsx balance map (lines 154-156). -/
def byDateSort (txs : List Tx) : List Tx :=
  jsSort byDateCmp txs

/-- The (tx.id, balance) pairs produced by the balanceMap loop of
part_006 lines 183-192 (and Ledger.tsx lines 157-163), in iteration
order: balance += tx.amount_cents; map.set(tx.id, balance). -/
def balanceEntries (balance : Int) : List Tx → List (Nat × Int)
  | [] => []
  | t :: ts => (t.id, balance + t.amount_cents) :: balanceEntries (balance + t.amount_cents) ts

/-- Sum of amount_cents over a row list. -/
def sumAmounts (l : List Tx) : Int :=
  (l.map (fun t => t.amount_cents)).sum

/-- Footer Month Total of part_006 lines 492-499:
transactions.filter(tx => tx.transaction_type !== 'forecast')
            .reduce((sum, tx) => sum + tx.amount_cents, 0). -/
def monthTotal (txs : List Tx) : Int :=
  (txs.filter (fun t => !(t.transaction_type == "forecast"))).foldl
    (fun sum t => sum + t.amount_cents) 0

/-- The remaining forecast total in the words of the spec (section 6):
sum of forecast-kind amounts in a period not yet fulfilled, i.e. the
amounts of the still-visible forecast rows. Stated for comparison with
the total the code actually exposes. -/
def specRemainingForecastTotal (txs fs : List Tx) : Int :=
  sumAmounts (visibleForecasts txs fs)

/-- Parsed import row as shipped by the preview endpoint and consumed by
ImportModal.tsx; only the fields handleCommit reads are modelled. -/
structure ParsedTx where
  row_index : Nat
  posted_date : String
  payee_raw : Option String
  amount_cents : Int
deriving DecidableEq

/-- Duplicate classification entry of the preview: the parsed row plus
its fingerprint, paired with a matched existing row we do not need. -/
structure DupPair where
  parsed : ParsedTx
  fingerprint : String
deriving DecidableEq

/-- Import preview response fields used by handleCommit. -/
structure ImportPreview where
  new_transactions : List ParsedTx
  duplicates : List DupPair
deriving DecidableEq

/-- Transaction list submitted by handleCommit, ImportModal.tsx lines
249-255: new transactions whose row_index the user has not excluded,
followed by the parsed rows of duplicates whose row_index the user has
accepted. The two JS Sets are modelled as lists with membership. -/
def commitTransactions (preview : ImportPreview)
    (excludedNew acceptedDuplicates : List Nat) : List ParsedTx :=
  preview.new_transactions.filter (fun tx => ! excludedNew.contains tx.row_index)
  ++ (preview.duplicates.filter
        (fun d => acceptedDuplicates.contains d.parsed.row_index)).map
      (fun d => d.parsed)

/-- Little-endian decimal digits with explicit fuel (fuel bounds the
number of divisions; digitsLE supplies n+1 which always suffices). -/
def digitsAuxLE : Nat → Nat → List Nat
  | 0, _ => []
  | fuel+1, n => if n = 0 then [] else n % 10 :: digitsAuxLE fuel (n / 10)

/-- Little-endian decimal digits of n (empty for 0). -/
def digitsLE (n : Nat) : List Nat :=
  digitsAuxLE (n+1) n

/-- Character of a decimal digit. -/
def digChar (d : Nat) : Char :=
  Char.ofNat (48 + d)

/-- Numeric value of a decimal digit character. -/
def digVal (c : Char) : Nat :=
  c.toNat - 48

/-- Value of a big-endian digit list. -/
def ofDigitsBE (ds : List Nat) : Nat :=
  ds.foldl (fun acc d => 10 * acc + d) 0

/-- Value of a little-endian digit list. -/
def ofDigitsLE : List Nat → Nat
  | [] => 0
  | d :: ds => d + 10 * ofDigitsLE ds

/-- Big-endian decimal characters of n, with a single 0 digit for zero
(as Number.prototype.toLocaleString renders it). -/
def natToChars (n : Nat) : List Char :=
  if n = 0 then ['0'] else ((digitsLE n).map digChar).reverse

/-- en-US thousands grouping on a little-endian character list: a comma
is inserted after every third digit that is followed by more digits. -/
def groupLE : Nat → List Char → List Char
  | _, [] => []
  | k, c :: cs => if k = 0 then ',' :: c :: groupLE 2 cs else c :: groupLE (k-1) cs

/-- Big-endian integer part with en-US comma grouping. -/
def groupedIntChars (n : Nat) : List Char :=
  if n = 0 then ['0'] else (groupLE 3 ((digitsLE n).map digChar)).reverse

/-- Two-digit zero-padded rendering of n < 100 (the cents part). -/
def twoDigits (n : Nat) : List Char :=
  [digChar (n / 10), digChar (n % 10)]

/-- formatCurrency of format.ts lines 49-55: dollars = cents/100
rendered by toLocaleString('en-US', style currency USD), i.e.
"$1,234.56" and "-$1,234.56". Exact for integer cent values in the
exactly-representable (safe double) range; float rounding outside that
range is not modelled. -/
def formatCurrency (cents : Int) : String :=
  let n := cents.natAbs
  let core := groupedIntChars (n / 100) ++ '.' :: twoDigits (n % 100)
  if cents < 0 then ⟨'-' :: '$' :: core⟩ else ⟨'$' :: core⟩

/-- Characters removed by parseCurrency's replace(/[$,\s]/g, '').
Char.isWhitespace covers the ASCII whitespace class. -/
def keepChar (c : Char) : Bool :=
  !(c == '$' || c == ',' || c.isWhitespace)

/-- The cleaned character list of parseCurrency, format.ts line 62. -/
def cleanedChars (s : String) : List Char :=
  s.data.filter keepChar

/-- Leading sign of a JS number literal: returns (isNegative, rest). -/
def readSign (cs : List Char) : Bool × List Char :=
  match cs with
  | [] => (false, [])
  | c :: t => if c = '-' then (true, t) else if c = '+' then (false, t) else (false, cs)

/-- Exponent part of parseFloat after the 'e': optional sign then
digits; an exponent with no digits contributes 0 (it is not consumed as
part of the number). -/
def readExpo (cs : List Char) : Int :=
  let s := readSign cs
  let ds := s.2.takeWhile Char.isDigit
  if ds.length = 0 then 0
  else if s.1 then -(ofDigitsBE (ds.map digVal) : Int) else (ofDigitsBE (ds.map digVal) : Int)

/-- parseFloat on an already-cleaned character list: longest prefix of
sign? digits ('.' digits)? ([eE] sign? digits)?; none when no digit is
found (JS NaN). Values are exact rationals; double rounding for inputs
outside the exactly-representable range is not modelled. -/
def parseFloatQ (cs : List Char) : Option ℚ :=
  let s := readSign cs
  let intDs := s.2.takeWhile Char.isDigit
  let afterInt := s.2.dropWhile Char.isDigit
  let fracDs := if afterInt.head? = some '.' then afterInt.tail.takeWhile Char.isDigit else []
  let afterFrac := if afterInt.head? = some '.' then afterInt.tail.dropWhile Char.isDigit else afterInt
  if intDs.length = 0 && fracDs.length = 0 then none
  else
    let mant : ℚ := (ofDigitsBE (intDs.map digVal) : ℚ)
      + (ofDigitsBE (fracDs.map digVal) : ℚ) / (10 : ℚ) ^ fracDs.length
    let e : Int := if afterFrac.head? = some 'e' || afterFrac.head? = some 'E'
      then readExpo afterFrac.tail else 0
    let mag : ℚ := mant * (10 : ℚ) ^ e
    some (if s.1 then -mag else mag)

/-- Math.round: round half toward positive infinity. -/
def jsRound (q : ℚ) : Int :=
  ⌊q + 1/2⌋

/-- parseCurrency of format.ts lines 60-66: strip [$,\s], parseFloat,
0 on NaN, else Math.round(dollars * 100). -/
def parseCurrency (s : String) : Int :=
  match parseFloatQ (cleanedChars s) with
  | none => 0
  | some dollars => jsRound (dollars * 100)

/-- Gregorian leap year, as date-fns endOfMonth computes it. -/
def isLeapYear (y : Nat) : Bool :=
  (y % 4 == 0 && y % 100 != 0) || y % 400 == 0

/-- Days in a month, as date-fns endOfMonth computes it. -/
def daysInMonth (y m : Nat) : Nat :=
  if m = 2 then (if isLeapYear y then 29 else 28)
  else if m = 4 ∨ m = 6 ∨ m = 9 ∨ m = 11 then 30 else 31

/-- Left-pad with zeros to the given width. -/
def padLeft (w : Nat) (cs : List Char) : List Char :=
  List.replicate (w - cs.length) '0' ++ cs

/-- format(date, 'yyyy-MM-dd') of date-fns for a concrete calendar day. -/
def dateStr (y m d : Nat) : String :=
  ⟨padLeft 4 (natToChars y) ++ '-' :: (padLeft 2 (natToChars m) ++ '-' :: padLeft 2 (natToChars d))⟩

/-- monthStart of part_006 line 79: format(startOfMonth, 'yyyy-MM-dd'). -/
def monthStartStr (y m : Nat) : String :=
  dateStr y m 1

/-- monthEnd of part_006 line 96: format(endOfMonth, 'yyyy-MM-dd'). -/
def monthEndStr (y m : Nat) : String :=
  dateStr y m (daysInMonth y m)

/-- The forecast query issued by the ledger page for the viewed month. -/
structure ForecastRequest where
  start_date : String
  end_date : String
  enabled : Bool
deriving DecidableEq

/-- The forecast request the ledger page issues, part_006 lines 95-97
combined with useForecasts.ts lines 4-13: the range is the first and
last day of the month currently displayed (whatever month the user has
navigated to), and the query is enabled whenever accountId, startDate
and endDate are truthy (account id nonzero, date strings nonempty). -/
def ledgerForecastRequest (accountId y m : Nat) : ForecastRequest :=
  { start_date := monthStartStr y m,
    end_date := monthEndStr y m,
    enabled := (accountId != 0) && (monthStartStr y m != "") && (monthEndStr y m != "") }

/-- One row of a linked transfer pair. -/
structure TransferSide where
  account_id : Nat
  posted_date : String
  amount_cents : Int
  link_id : Option Nat
deriving DecidableEq

/-- A linked transfer pair across two accounts. -/
structure TransferPair where
  side_a : TransferSide
  side_b : TransferSide
deriving DecidableEq

/-- Modelled from the spec: the backend Transfer Link Manager is not
under src/ (only its frontend callers are). Spec 4.4, create transfer:
"creates a second transaction in the target account with sign-inverted
amount, same date, a shared link id". -/
def createTransferPair (sourceAccount targetAccount : Nat) (postedDate : String)
    (amount : Int) (linkId : Nat) : TransferPair :=
  { side_a := { account_id := sourceAccount, posted_date := postedDate,
                amount_cents := amount, link_id := some linkId },
    side_b := { account_id := targetAccount, posted_date := postedDate,
                amount_cents := -amount, link_id := some linkId } }

/-- Modelled from the spec: the backend Transfer Link Manager is not
under src/. Spec 4.4, edit one side: "propagates date/amount changes to
the linked counterpart so the pair remains amount-symmetric". -/
def editTransferAmount (p : TransferPair) (editSideA : Bool) (newAmount : Int) : TransferPair :=
  if editSideA then
    { side_a := { p.side_a with amount_cents := newAmount },
      side_b := { p.side_b with amount_cents := -newAmount } }
  else
    { side_a := { p.side_a with amount_cents := -newAmount },
      side_b := { p.side_b with amount_cents := newAmount } }

/-- Amount the transfer entry row submits, part_006 lines 1099-1108
(amount_cents: parseCurrency(amount)) routed through handleCreate's
applyTypeSign with type = transfer (lines 238-247). -/
def transferRequestAmount (amount : String) : Int :=
  createSentAmount .transfer (parseCurrency amount)

/-- Sample actual transaction: rent paid, 1000.00 debit. -/
def rentActual : Tx :=
  { id := 1, posted_date := "2024-02-10", created_at := "2024-02-10T12:00:00",
    amount_cents := -100000, transaction_type := "manual",
    display_name := some ("Rent"), payee_raw := some ("RENT LLC") }

/-- Sample forecast for the same payee with a different amount (500.00). -/
def rentForecast : Tx :=
  { id := 9001, posted_date := "2024-02-15", created_at := "",
    amount_cents := -50000, transaction_type := "forecast",
    display_name := some ("Rent"), payee_raw := none }

/-- Sample forecast for an unrelated payee. -/
def utilForecast : Tx :=
  { id := 9002, posted_date := "2024-02-20", created_at := "",
    amount_cents := -7500, transaction_type := "forecast",
    display_name := some ("Utilities"), payee_raw := none }

/-- Sample actual transaction matching utilForecast's payee. -/
def utilActual : Tx :=
  { id := 2, posted_date := "2024-02-21", created_at := "2024-02-21T08:00:00",
    amount_cents := -7500, transaction_type := "import_csv",
    display_name := some ("Utilities"), payee_raw := some ("CITY UTILITIES") }

/-- Sample row committed later in the session but dated like c3Second. -/
def c3First : Tx :=
  { id := 11, posted_date := "2024-02-05", created_at := "2024-02-20T10:00:00",
    amount_cents := -1000, transaction_type := "manual",
    display_name := none, payee_raw := some ("A") }

/-- Sample row with the same posted date but an earlier creation
timestamp, listed after c3First in the fetched order. -/
def c3Second : Tx :=
  { id := 12, posted_date := "2024-02-05", created_at := "2024-01-31T09:00:00",
    amount_cents := 2000, transaction_type := "manual",
    display_name := none, payee_raw := some ("B") }

/-- The fulfillment criterion the merged ledger view implements for a
single candidate actual transaction t against a forecast f: f stops
rendering exactly when its truthy display_name equals t's truthy
display_name or payee_raw (part_006 lines 136-145); the amount plays no
role. -/
def fulfillsB (t f : Tx) : Bool :=
  match f.display_name with
  | none => false
  | some n => if n = "" then false else existingPayeesHas [t] n

/-- The auto-fulfillment match rule in the words of the spec (4.3), for
rows already scoped to one account and one month view: same payee
identity and amount equal exactly (no tolerance band). Stated for
comparison with the view's implemented criterion fulfillsB. -/
def specMatches (t f : Tx) : Bool :=
  (t.display_name == f.display_name) && (t.amount_cents == f.amount_cents)

/-- Sample forecast whose payee and amount both equal rentActual's:
the one forecast the spec's match rule fulfills. -/
def rentForecastExact : Tx :=
  { id := 9003, posted_date := "2024-02-15", created_at := "",
    amount_cents := -100000, transaction_type := "forecast",
    display_name := some ("Rent"), payee_raw := none }

/-- Sample forecast whose payee equals rentActual's raw payee text but
whose amount differs: not fulfilled by the spec's match rule, yet
dropped by the view because payee_raw also enters the payee set. -/
def landlordForecast : Tx :=
  { id := 9004, posted_date := "2024-02-20", created_at := "",
    amount_cents := -60000, transaction_type := "forecast",
    display_name := some ("RENT LLC"), payee_raw := none }

/-- Row a may precede row b in the merged ledger's balance order:
earlier posted date, or same date with a coming no later in the
actual-before-forecast tie-break. -/
def dateForecastLE (a b : Tx) : Prop :=
  strLt a.posted_date b.posted_date = true ∨
    (a.posted_date = b.posted_date ∧ forecastFlag a ≤ forecastFlag b)

/-- Row a may precede row b in the legacy balance order: earlier posted
date, or same date with a created no later than b. -/
def dateCreatedLE (a b : Tx) : Prop :=
  strLt a.posted_date b.posted_date = true ∨
    (a.posted_date = b.posted_date ∧ strLt b.created_at a.created_at = false)

theorem existingPayeesHas_append (txs more : List Tx) (n : String) :
    existingPayeesHas (txs ++ more) n
      = (existingPayeesHas txs n || existingPayeesHas more n) := by
  simp [existingPayeesHas, List.any_append]

theorem forecastVisible_append_singleton (txs : List Tx) (t f : Tx) :
    forecastVisible (txs ++ [t]) f = (forecastVisible txs f && ! fulfillsB t f) := by
  unfold forecastVisible fulfillsB
  cases h : f.display_name with
  | none => rfl
  | some n =>
    by_cases hn : n = ""
    · simp [hn]
    · simp [hn, existingPayeesHas_append]

/-- C10: applyTypeSign makes debit amounts non-positive and credit
amounts non-negative, leaves transfer amounts unchanged, preserves the
absolute value, and is idempotent; handleCreate stores exactly this
normalized amount, so manually entered debits are stored non-positive
and credits non-negative. -/
theorem entry_sign_normalization :
    ∀ c : Int,
      applyTypeSign .debit c ≤ 0 ∧
      0 ≤ applyTypeSign .credit c ∧
      applyTypeSign .transfer c = c ∧
      (∀ ty, (applyTypeSign ty c).natAbs = c.natAbs) ∧
      (∀ ty, applyTypeSign ty (applyTypeSign ty c) = applyTypeSign ty c) ∧
      createSentAmount .debit c ≤ 0 ∧ 0 ≤ createSentAmount .credit c := by
  intro c
  have hd : applyTypeSign .debit c ≤ 0 := by
    simp only [applyTypeSign]
    split <;> omega
  have hc : 0 ≤ applyTypeSign .credit c := by
    simp only [applyTypeSign]
    split <;> omega
  refine ⟨hd, hc, rfl, ?_, ?_, hd, hc⟩
  · intro ty
    cases ty <;> simp only [applyTypeSign] <;> first | rfl | (split_ifs <;> omega)
  · intro ty
    cases ty <;> simp only [applyTypeSign] <;> first | rfl | (split_ifs <;> omega)

/-- C5: the transaction list submitted on import commit contains exactly
the previewed new transactions the user has not excluded plus the parsed
rows of duplicates whose row index the user has accepted; in the initial
state (no user action on duplicates, nothing excluded) the committed
list is exactly the new transactions, so no duplicate row is committed. -/
theorem import_commit_exact_selection :
    ∀ (preview : ImportPreview) (excludedNew acceptedDuplicates : List Nat) (tx : ParsedTx),
      (tx ∈ commitTransactions preview excludedNew acceptedDuplicates ↔
        (tx ∈ preview.new_transactions ∧ tx.row_index ∉ excludedNew) ∨
        (∃ d ∈ preview.duplicates, d.parsed = tx ∧ d.parsed.row_index ∈ acceptedDuplicates)) ∧
      commitTransactions preview [] [] = preview.new_transactions := by
  intro p ex ac tx
  constructor
  · constructor
    · intro h
      rcases List.mem_append.1 h with h1 | h2
      · rcases List.mem_filter.1 h1 with ⟨hmem, hker⟩
        refine Or.inl ⟨hmem, ?_⟩
        simpa using hker
      · rcases List.mem_map.1 h2 with ⟨d, hd, hparsed⟩
        rcases List.mem_filter.1 hd with ⟨hdd, hacc⟩
        exact Or.inr ⟨d, hdd, hparsed, by simpa using hacc⟩
    · intro h
      rcases h with ⟨hmem, hnotex⟩ | ⟨d, hdd, hparsed, hacc⟩
      · exact List.mem_append.2 (Or.inl (List.mem_filter.2 ⟨hmem, by simpa⟩))
      · exact List.mem_append.2
          (Or.inr (List.mem_map.2 ⟨d, List.mem_filter.2 ⟨hdd, by simpa⟩, hparsed⟩))
  · simp [commitTransactions]

/-- C6: immediately after creation the two sides of a transfer pair
carry sign-opposite amounts, and editing the amount on either side
restores the sign-opposite equality on the linked counterpart (Transfer
Link Manager modelled from spec 4.4; the frontend submits the raw
positive cents with type transfer, which applyTypeSign leaves as-is). -/
theorem transfer_symmetry :
    ∀ (src tgt : Nat) (d : String) (amt : Int) (lid : Nat),
      (createTransferPair src tgt d amt lid).side_a.amount_cents
        = -(createTransferPair src tgt d amt lid).side_b.amount_cents ∧
      (∀ (p : TransferPair) (editSideA : Bool) (newAmt : Int),
        (editTransferAmount p editSideA newAmt).side_a.amount_cents
          = -(editTransferAmount p editSideA newAmt).side_b.amount_cents) ∧
      (∀ s : String, transferRequestAmount s = parseCurrency s) := by
  intro src tgt d amt lid
  refine ⟨by simp [createTransferPair], ?_, fun s => rfl⟩
  intro p editSideA newAmt
  cases editSideA <;> simp [editTransferAmount]

/-- C1: evaluation of the merged-view forecast filter at the failing
input: an actual Rent transaction for a different amount makes the Rent
forecast disappear (the repository's own brief requires matching by
payee, month and amount exactly, so the forecast should still render);
the filter provably never reads any amount. -/
theorem forecast_drop_ignores_amount :
    (visibleForecasts [rentActual] [rentForecast, utilForecast] = [utilForecast] ∧
      rentForecast.amount_cents ≠ rentActual.amount_cents ∧
      rentForecast.display_name = rentActual.display_name) ∧
    ∀ (txs fs : List Tx) (a : Int),
      visibleForecasts (txs.map (fun t => { t with amount_cents := a })) fs
        = visibleForecasts txs fs := by
  refine ⟨by decide, ?_⟩
  intro txs fs a
  have hvis : ∀ f, forecastVisible (txs.map (fun t => { t with amount_cents := a })) f
      = forecastVisible txs f := by
    intro f
    unfold forecastVisible
    cases f.display_name with
    | none => rfl
    | some n =>
      by_cases hn : n = ""
      · simp [hn]
      · have hhas : existingPayeesHas (txs.map (fun t => { t with amount_cents := a })) n
            = existingPayeesHas txs n := by
          simp only [existingPayeesHas]
          rw [List.any_map]
          rfl
        simp [hn, hhas]
  simp only [visibleForecasts]
  exact List.filter_congr (fun f _ => hvis f)

/-- C8: evaluation at the failing input: the only total the ledger
footer exposes is the sum of the non-forecast (actual) amounts of the
month, which differs from the remaining-forecast total the spec (and
the repository brief) call for; the Month Total provably excludes every
forecast-kind amount. -/
theorem month_total_is_actuals_only :
    (monthTotal [rentActual] = -100000 ∧
      specRemainingForecastTotal [rentActual] [utilForecast] = -7500 ∧
      monthTotal [rentActual] ≠ specRemainingForecastTotal [rentActual] [utilForecast]) ∧
    ∀ txs : List Tx,
      monthTotal txs
        + sumAmounts (txs.filter (fun t => t.transaction_type == "forecast"))
        = sumAmounts txs := by
  refine ⟨by decide, ?_⟩
  intro txs
  have hfold : ∀ (l : List Tx) (i : Int),
      l.foldl (fun sum t => sum + t.amount_cents) i = i + sumAmounts l := by
    intro l
    induction l with
    | nil => intro i; simp [sumAmounts]
    | cons t ts ih =>
      intro i
      simp only [List.foldl_cons, ih, sumAmounts, List.map_cons, List.sum_cons]
      ring
  rw [monthTotal, hfold]
  induction txs with
  | nil => simp [sumAmounts]
  | cons t ts ih =>
    by_cases h : t.transaction_type = "forecast" <;>
      simp [List.filter_cons, h, sumAmounts, List.sum_cons] at ih ⊢ <;> omega

/-- C7 (counterexample): an actual transaction that fulfills exactly
one of the two visible forecasts under the spec's amount-exact match
rule (countP specMatches = 1) removes both of them from the view
(length drops from 2 to 0, not to 1), because the actual's display_name
and payee_raw both enter the payee set and amounts are ignored. -/
theorem fulfillment_drop_counterexample :
    (visibleForecasts [] [rentForecastExact, landlordForecast]).countP
        (specMatches rentActual) = 1
    ∧ (visibleForecasts [] [rentForecastExact, landlordForecast]).length = 2
    ∧ (visibleForecasts ([] ++ [rentActual]) [rentForecastExact, landlordForecast]).length
        = 0 := by
  decide

/-- C7 (amended): projecting the visible forecast set twice over
unchanged state yields the identical set, and adding one actual
transaction that fulfills exactly one visible forecast by the view's
implemented criterion (truthy display_name equal to the actual's truthy
display_name or payee_raw, amounts ignored) leaves exactly one fewer
visible forecast instance. -/
theorem idempotent_fulfillment :
    (∀ txs fs, visibleForecasts txs (visibleForecasts txs fs) = visibleForecasts txs fs) ∧
    ∀ (txs fs : List Tx) (t : Tx),
      (visibleForecasts txs fs).countP (fulfillsB t) = 1 →
      (visibleForecasts (txs ++ [t]) fs).length + 1 = (visibleForecasts txs fs).length := by
  constructor
  · intro txs fs
    simp [visibleForecasts, List.filter_filter]
  · intro txs fs t hone
    have hsplit : visibleForecasts (txs ++ [t]) fs
        = (visibleForecasts txs fs).filter (fun f => ! fulfillsB t f) := by
      simp only [visibleForecasts, List.filter_filter]
      apply List.filter_congr
      intro f _
      rw [forecastVisible_append_singleton, Bool.and_comm]
    rw [hsplit]
    have hlen := List.length_eq_countP_add_countP (fulfillsB t) (visibleForecasts txs fs)
    have hfil : ((visibleForecasts txs fs).filter (fun f => ! fulfillsB t f)).length
        = (visibleForecasts txs fs).countP (fun f => ! fulfillsB t f) :=
      (List.countP_eq_length_filter _ _).symm
    have hsame : (visibleForecasts txs fs).countP (fun f => ! fulfillsB t f)
        = (visibleForecasts txs fs).countP (fun f => decide ¬ (fulfillsB t f) = true) := by
      apply List.countP_congr
      intro f _
      simp
    omega

/-- C7 witness: with no prior actuals and one Utilities forecast, adding
the matching Utilities actual removes exactly that one forecast. -/
theorem idempotent_fulfillment_witness :
    (visibleForecasts ([] ++ [utilActual]) [utilForecast]).length + 1
      = (visibleForecasts [] [utilForecast]).length :=
  idempotent_fulfillment.2 [] [utilForecast] utilActual (by decide)

theorem charListLt_irrefl : ∀ l : List Char, charListLt l l = false := by
  intro l
  induction l with
  | nil => rfl
  | cons a as ih => simp [charListLt, lt_irrefl, ih]

theorem charListLt_trans : ∀ x y z : List Char,
    charListLt x y = true → charListLt y z = true → charListLt x z = true := by
  intro x
  induction x with
  | nil =>
    intro y z hxy hyz
    cases y with
    | nil => simp [charListLt] at hxy
    | cons b bs =>
      cases z with
      | nil => simp [charListLt] at hyz
      | cons c cs => simp [charListLt]
  | cons a as ih =>
    intro y z hxy hyz
    cases y with
    | nil => simp [charListLt] at hxy
    | cons b bs =>
      cases z with
      | nil => simp [charListLt] at hyz
      | cons c cs =>
        simp only [charListLt] at hxy hyz ⊢
        by_cases hab : a < b
        · by_cases hbc : b < c
          · simp [lt_trans hab hbc]
          · rw [if_neg hbc] at hyz
            by_cases hcb : c < b
            · rw [if_pos hcb] at hyz
              exact absurd hyz (by simp)
            · have hbceq : b = c := le_antisymm (not_lt.1 hcb) (not_lt.1 hbc)
              rw [← hbceq]
              simp [hab]
        · rw [if_neg hab] at hxy
          by_cases hba : b < a
          · rw [if_pos hba] at hxy
            exact absurd hxy (by simp)
          · have habeq : a = b := le_antisymm (not_lt.1 hba) (not_lt.1 hab)
            rw [if_neg hba] at hxy
            subst habeq
            by_cases hac : a < c
            · simp [hac]
            · rw [if_neg hac] at hyz ⊢
              by_cases hca : c < a
              · rw [if_pos hca] at hyz
                exact absurd hyz (by simp)
              · rw [if_neg hca] at hyz ⊢
                exact ih bs cs hxy hyz

theorem charListLt_connex : ∀ x y : List Char,
    charListLt x y = false → charListLt y x = false → x = y := by
  intro x
  induction x with
  | nil =>
    intro y hxy _
    cases y with
    | nil => rfl
    | cons b bs => simp [charListLt] at hxy
  | cons a as ih =>
    intro y hxy hyx
    cases y with
    | nil => simp [charListLt] at hyx
    | cons b bs =>
      simp only [charListLt] at hxy hyx
      by_cases hab : a < b
      · rw [if_pos hab] at hxy
        exact absurd hxy (by simp)
      · by_cases hba : b < a
        · rw [if_pos hba] at hyx
          exact absurd hyx (by simp)
        · have habeq : a = b := le_antisymm (not_lt.1 hba) (not_lt.1 hab)
          rw [if_neg hab, if_neg hba] at hxy
          rw [if_neg hba, if_neg hab] at hyx
          rw [habeq, ih bs hxy hyx]

theorem strLt_irrefl (a : String) : strLt a a = false :=
  charListLt_irrefl _

theorem strLt_trans {a b c : String} (h1 : strLt a b = true) (h2 : strLt b c = true) :
    strLt a c = true :=
  charListLt_trans _ _ _ h1 h2

theorem strLt_connex {a b : String} (h1 : strLt a b = false) (h2 : strLt b a = false) :
    a = b := by
  have hd := charListLt_connex _ _ h1 h2
  cases a
  cases b
  simp_all [strLt]

theorem strLt_le_trans {a b c : String} (h1 : strLt b a = false) (h2 : strLt c b = false) :
    strLt c a = false := by
  cases hc : strLt c a with
  | false => rfl
  | true =>
    cases hab : strLt a b with
    | true =>
      have := strLt_trans hc hab
      rw [this] at h2
      exact absurd h2 (by simp)
    | false =>
      have heq : a = b := strLt_connex hab h1
      rw [heq] at hc
      rw [hc] at h2
      exact absurd h2 (by simp)

theorem ledgerCmp_le_iff (a b : Tx) : ledgerCmp a b ≤ 0 ↔ dateForecastLE a b := by
  unfold ledgerCmp dateForecastLE
  cases hx : strLt a.posted_date b.posted_date with
  | true => simp [strCmp, hx]
  | false =>
    cases hy : strLt b.posted_date a.posted_date with
    | true =>
      simp only [strCmp, hx, hy, if_true, if_false, Bool.false_eq_true]
      norm_num
      rintro heq
      rw [heq] at hy
      rw [strLt_irrefl] at hy
      exact absurd hy (by simp)
    | false =>
      have heq : a.posted_date = b.posted_date := strLt_connex hx hy
      simp [strCmp, hx, hy, heq, sub_nonpos, strLt_irrefl]

theorem byDateCmp_le_iff (a b : Tx) : byDateCmp a b ≤ 0 ↔ dateCreatedLE a b := by
  unfold byDateCmp dateCreatedLE
  cases hx : strLt a.posted_date b.posted_date with
  | true => simp [strCmp, hx]
  | false =>
    cases hy : strLt b.posted_date a.posted_date with
    | true =>
      simp only [strCmp, hx, hy, if_true, if_false, Bool.false_eq_true]
      norm_num
      rintro heq
      rw [heq] at hy
      rw [strLt_irrefl] at hy
      exact absurd hy (by simp)
    | false =>
      have heq : a.posted_date = b.posted_date := strLt_connex hx hy
      cases hz : strLt a.created_at b.created_at with
      | true =>
        have hz2 : strLt b.created_at a.created_at = false := by
          cases hw : strLt b.created_at a.created_at with
          | false => rfl
          | true =>
            have := strLt_trans hz hw
            rw [strLt_irrefl] at this
            exact absurd this (by simp)
        simp [strCmp, hx, hy, hz, hz2, heq, strLt_irrefl]
      | false =>
        cases hw : strLt b.created_at a.created_at with
        | true => simp [strCmp, hx, hy, hz, hw, heq, strLt_irrefl]
        | false => simp [strCmp, hx, hy, hz, hw, heq, strLt_irrefl]

theorem strLt_asymm {a b : String} (h : strLt a b = true) : strLt b a = false := by
  cases hc : strLt b a with
  | false => rfl
  | true =>
    have := strLt_trans h hc
    rw [strLt_irrefl] at this
    exact absurd this (by simp)

theorem dateForecastLE_trans : ∀ a b c : Tx,
    dateForecastLE a b → dateForecastLE b c → dateForecastLE a c := by
  rintro a b c (h1 | ⟨e1, f1⟩) (h2 | ⟨e2, f2⟩)
  · exact Or.inl (strLt_trans h1 h2)
  · exact Or.inl (by rw [← e2]; exact h1)
  · exact Or.inl (by rw [e1]; exact h2)
  · exact Or.inr ⟨e1.trans e2, le_trans f1 f2⟩

theorem dateForecastLE_total : ∀ a b : Tx, dateForecastLE a b ∨ dateForecastLE b a := by
  intro a b
  cases hx : strLt a.posted_date b.posted_date with
  | true => exact Or.inl (Or.inl hx)
  | false =>
    cases hy : strLt b.posted_date a.posted_date with
    | true => exact Or.inr (Or.inl hy)
    | false =>
      have heq := strLt_connex hx hy
      rcases le_total (forecastFlag a) (forecastFlag b) with h | h
      · exact Or.inl (Or.inr ⟨heq, h⟩)
      · exact Or.inr (Or.inr ⟨heq.symm, h⟩)

theorem dateCreatedLE_trans : ∀ a b c : Tx,
    dateCreatedLE a b → dateCreatedLE b c → dateCreatedLE a c := by
  rintro a b c (h1 | ⟨e1, f1⟩) (h2 | ⟨e2, f2⟩)
  · exact Or.inl (strLt_trans h1 h2)
  · exact Or.inl (by rw [← e2]; exact h1)
  · exact Or.inl (by rw [e1]; exact h2)
  · exact Or.inr ⟨e1.trans e2, strLt_le_trans f1 f2⟩

theorem dateCreatedLE_total : ∀ a b : Tx, dateCreatedLE a b ∨ dateCreatedLE b a := by
  intro a b
  cases hx : strLt a.posted_date b.posted_date with
  | true => exact Or.inl (Or.inl hx)
  | false =>
    cases hy : strLt b.posted_date a.posted_date with
    | true => exact Or.inr (Or.inl hy)
    | false =>
      have heq := strLt_connex hx hy
      cases hz : strLt b.created_at a.created_at with
      | false => exact Or.inl (Or.inr ⟨heq, hz⟩)
      | true => exact Or.inr (Or.inr ⟨heq.symm, strLt_asymm hz⟩)

theorem balanceEntries_last : ∀ (l : List Tx) (b : Int), l ≠ [] →
    (balanceEntries b l).getLast?.map Prod.snd = some (b + sumAmounts l) := by
  intro l
  induction l with
  | nil => intro b h; exact absurd rfl h
  | cons t ts ih =>
    intro b _
    cases ts with
    | nil => simp [balanceEntries, sumAmounts]
    | cons u us =>
      have ih' := ih (b + t.amount_cents) (by simp)
      have hstep : balanceEntries b (t :: u :: us)
          = (t.id, b + t.amount_cents) :: balanceEntries (b + t.amount_cents) (u :: us) := rfl
      have hstep2 : balanceEntries (b + t.amount_cents) (u :: us)
          = (u.id, b + t.amount_cents + u.amount_cents)
            :: balanceEntries (b + t.amount_cents + u.amount_cents) us := rfl
      rw [hstep, hstep2, List.getLast?_cons_cons, ← hstep2, ih']
      congr 1
      simp only [sumAmounts, List.map_cons, List.sum_cons]
      ring

/-- C2: for every opening balance, every merged list of actual and
visible forecast rows, and every sort comparator, the running balance
recorded at the last sorted row equals the opening balance plus the sum
of all merged row amounts. -/
theorem balance_additivity (opening : Int) (c : Tx → Tx → Int) (txs fs : List Tx)
    (h : mergedLedger txs fs ≠ []) :
    ((balanceEntries opening (jsSort c (mergedLedger txs fs))).getLast?).map Prod.snd
      = some (opening + sumAmounts (mergedLedger txs fs)) := by
  have hperm : (jsSort c (mergedLedger txs fs)).Perm (mergedLedger txs fs) :=
    @List.perm_insertionSort Tx (fun a b => c a b ≤ 0) (fun a b => Int.decLe _ _) _
  have hne : jsSort c (mergedLedger txs fs) ≠ [] := by
    intro hnil
    rw [hnil] at hperm
    exact h hperm.symm.eq_nil
  have hsum : sumAmounts (jsSort c (mergedLedger txs fs)) = sumAmounts (mergedLedger txs fs) := by
    unfold sumAmounts
    exact (hperm.map _).sum_eq
  rw [balanceEntries_last _ opening hne, hsum]

/-- C2 witness: a one-row February ledger, sorted with the page's date
comparator, reports opening plus that row's amount at its last row. -/
theorem balance_additivity_witness :
    ((balanceEntries 0 (jsSort ledgerCmp (mergedLedger [rentActual] []))).getLast?).map Prod.snd
      = some (0 + sumAmounts (mergedLedger [rentActual] [])) :=
  balance_additivity 0 ledgerCmp [rentActual] [] (by decide)

/-- C3 (counterexample): two same-date actual rows whose creation
timestamps are in the reverse of their fetched order keep their fetched
(insertion) order in the list the running balance is computed over; the
row with the earlier creation timestamp does not come first. -/
theorem balance_order_counterexample :
    jsSort ledgerCmp (mergedLedger [c3First, c3Second] []) = [c3First, c3Second]
    ∧ c3First.posted_date = c3Second.posted_date
    ∧ strLt c3Second.created_at c3First.created_at = true
    ∧ (balanceEntries 0 (jsSort ledgerCmp (mergedLedger [c3First, c3Second] []))).map Prod.fst
        = [11, 12] := by
  decide

/-- C3 (amended): the legacy Ledger.tsx balance map is computed over
rows ordered by (posted_date, created_at) ascending, while the merged
forecast ledger of part_006 computes its balance over rows ordered by
posted_date with forecasts after actuals on equal dates (insertion
order otherwise, creation timestamp unused). -/
theorem running_balance_order :
    (∀ txs : List Tx, (byDateSort txs).Sorted dateCreatedLE) ∧
    (∀ txs fs : List Tx, (jsSort ledgerCmp (mergedLedger txs fs)).Sorted dateForecastLE) := by
  constructor
  · intro txs
    have htot : IsTotal Tx (fun a b => byDateCmp a b ≤ 0) := by
      refine ⟨?_⟩
      intro a b
      rw [byDateCmp_le_iff, byDateCmp_le_iff]
      exact dateCreatedLE_total a b
    have htr : IsTrans Tx (fun a b => byDateCmp a b ≤ 0) := by
      refine ⟨?_⟩
      intro a b c h1 h2
      rw [byDateCmp_le_iff] at h1 h2 ⊢
      exact dateCreatedLE_trans a b c h1 h2
    have hs := @List.sorted_insertionSort Tx (fun a b => byDateCmp a b ≤ 0)
      (fun a b => Int.decLe _ _) htot htr txs
    exact List.Pairwise.imp (fun hab => (byDateCmp_le_iff _ _).1 hab) hs
  · intro txs fs
    have htot : IsTotal Tx (fun a b => ledgerCmp a b ≤ 0) := by
      refine ⟨?_⟩
      intro a b
      rw [ledgerCmp_le_iff, ledgerCmp_le_iff]
      exact dateForecastLE_total a b
    have htr : IsTrans Tx (fun a b => ledgerCmp a b ≤ 0) := by
      refine ⟨?_⟩
      intro a b c h1 h2
      rw [ledgerCmp_le_iff] at h1 h2 ⊢
      exact dateForecastLE_trans a b c h1 h2
    have hs := @List.sorted_insertionSort Tx (fun a b => ledgerCmp a b ≤ 0)
      (fun a b => Int.decLe _ _) htot htr (mergedLedger txs fs)
    exact List.Pairwise.imp (fun hab => (ledgerCmp_le_iff _ _).1 hab) hs

theorem natToChars_ne_nil (n : Nat) : natToChars n ≠ [] := by
  unfold natToChars
  by_cases hn : n = 0
  · simp [hn]
  · simp only [hn, if_neg, ite_false]
    unfold digitsLE digitsAuxLE
    simp [hn]

theorem dateStr_ne_empty (y m d : Nat) : dateStr y m d ≠ "" := by
  intro hcon
  have hdata : (padLeft 4 (natToChars y)
      ++ '-' :: (padLeft 2 (natToChars m) ++ '-' :: padLeft 2 (natToChars d)))
      = [] := congrArg String.data hcon
  rcases List.append_eq_nil.1 hdata with ⟨_, h2⟩
  exact absurd h2 (by simp)

/-- C4 (counterexample): with January 2020 displayed while any later
month (June 2024 in this instance) is current, the ledger still issues
an enabled forecast request whose whole range lies strictly in the
past - the caller does not restrict requests to present/future ranges. -/
theorem past_month_forecast_request :
    (ledgerForecastRequest 1 2020 1).enabled = true
    ∧ (ledgerForecastRequest 1 2020 1).start_date = "2020-01-01"
    ∧ (ledgerForecastRequest 1 2020 1).end_date = "2020-01-31"
    ∧ strLt (ledgerForecastRequest 1 2020 1).end_date ("2024-06-01") = true := by
  decide

/-- C4 (amended): the ledger requests forecast projections for whatever
month is displayed: for every viewed month (past months included, since
nothing in the request depends on the current date) the query is
enabled and spans exactly that month's first through last day; any
suppression of past-month forecasts would have to happen in the
projector, not in this caller. -/
theorem forecast_request_is_viewed_month (accountId y m : Nat) (h : accountId ≠ 0) :
    (ledgerForecastRequest accountId y m).enabled = true ∧
    (ledgerForecastRequest accountId y m).start_date = monthStartStr y m ∧
    (ledgerForecastRequest accountId y m).end_date = monthEndStr y m := by
  refine ⟨?_, rfl, rfl⟩
  have h1 : (accountId != 0) = true := by simp [h]
  have h2 : (monthStartStr y m != "") = true := by
    simp [monthStartStr, dateStr_ne_empty]
  have h3 : (monthEndStr y m != "") = true := by
    simp [monthEndStr, dateStr_ne_empty]
  simp [ledgerForecastRequest, h1, h2, h3]

/-- C4 amended witness: the February 2024 view requests 2024-02-01
through 2024-02-29 with the query enabled. -/
theorem forecast_request_is_viewed_month_witness :
    (ledgerForecastRequest 1 2024 2).enabled = true ∧
    (ledgerForecastRequest 1 2024 2).start_date = monthStartStr 2024 2 ∧
    (ledgerForecastRequest 1 2024 2).end_date = monthEndStr 2024 2 :=
  forecast_request_is_viewed_month 1 2024 2 (by decide)

theorem ofDigitsLE_digitsAuxLE : ∀ f n : Nat, n < f → ofDigitsLE (digitsAuxLE f n) = n := by
  intro f
  induction f with
  | zero => intro n h; omega
  | succ f ih =>
    intro n h
    by_cases hn : n = 0
    · simp [digitsAuxLE, hn, ofDigitsLE]
    · rw [digitsAuxLE, if_neg hn, ofDigitsLE]
      have hdiv : n / 10 < f := by omega
      rw [ih (n / 10) hdiv]
      omega

theorem digitsAuxLE_lt_ten : ∀ (f n : Nat), ∀ d ∈ digitsAuxLE f n, d < 10 := by
  intro f
  induction f with
  | zero => intro n d hd; simp [digitsAuxLE] at hd
  | succ f ih =>
    intro n d hd
    by_cases hn : n = 0
    · simp [digitsAuxLE, hn] at hd
    · rw [digitsAuxLE, if_neg hn] at hd
      rcases List.mem_cons.1 hd with h | h
      · omega
      · exact ih (n / 10) d h

theorem ofDigitsBE_append_one (l : List Nat) (d : Nat) :
    ofDigitsBE (l ++ [d]) = 10 * ofDigitsBE l + d := by
  simp [ofDigitsBE, List.foldl_append]

theorem ofDigitsBE_reverse (l : List Nat) : ofDigitsBE l.reverse = ofDigitsLE l := by
  induction l with
  | nil => rfl
  | cons d ds ih =>
    rw [List.reverse_cons, ofDigitsBE_append_one, ih, ofDigitsLE]
    omega

theorem digChar_spec : ∀ d : Nat, d < 10 →
    digVal (digChar d) = d ∧ Char.isDigit (digChar d) = true ∧ keepChar (digChar d) = true := by
  decide

theorem isDigit_not_special (c : Char) (h : Char.isDigit c = true) :
    c ≠ '-' ∧ c ≠ '+' ∧ c ≠ '.' := by
  refine ⟨?_, ?_, ?_⟩ <;> intro heq <;> rw [heq] at h <;> exact absurd h (by decide)

theorem map_digVal_digChar (ds : List Nat) (h : ∀ d ∈ ds, d < 10) :
    (ds.map digChar).map digVal = ds := by
  induction ds with
  | nil => rfl
  | cons d ds ih =>
    simp only [List.map_cons, List.cons.injEq]
    exact ⟨(digChar_spec d (h d (List.mem_cons_self _ _))).1,
      ih (fun x hx => h x (List.mem_cons_of_mem _ hx))⟩

theorem natToChars_all_digits (n : Nat) :
    ∀ c ∈ natToChars n, Char.isDigit c = true ∧ keepChar c = true := by
  intro c hc
  unfold natToChars at hc
  by_cases hn : n = 0
  · rw [hn] at hc
    simp at hc
    rw [hc]
    exact ⟨by decide, by decide⟩
  · rw [if_neg hn] at hc
    rw [List.mem_reverse] at hc
    rcases List.mem_map.1 hc with ⟨d, hd, hdc⟩
    have hlt : d < 10 := digitsAuxLE_lt_ten _ _ d hd
    rw [← hdc]
    exact ⟨(digChar_spec d hlt).2.1, (digChar_spec d hlt).2.2⟩

theorem ofDigitsBE_natToChars (n : Nat) : ofDigitsBE ((natToChars n).map digVal) = n := by
  unfold natToChars
  by_cases hn : n = 0
  · simp [hn]
    decide
  · have hlt : ∀ d ∈ digitsLE n, d < 10 := digitsAuxLE_lt_ten (n+1) n
    rw [if_neg hn, List.map_reverse, map_digVal_digChar (digitsLE n) hlt, ofDigitsBE_reverse]
    exact ofDigitsLE_digitsAuxLE (n+1) n (Nat.lt_succ_self n)

theorem groupLE_filter (cs : List Char) :
    ∀ k : Nat, (∀ c ∈ cs, keepChar c = true) → (groupLE k cs).filter keepChar = cs := by
  induction cs with
  | nil => intro k _; rfl
  | cons c cs ih =>
    intro k h
    have hc := h c (List.mem_cons_self _ _)
    have hrest : ∀ x ∈ cs, keepChar x = true := fun x hx => h x (List.mem_cons_of_mem _ hx)
    have hcomma : keepChar ',' = false := by decide
    cases k with
    | zero => simp [groupLE, List.filter_cons, hcomma, hc, ih 2 hrest]
    | succ k => simp [groupLE, List.filter_cons, hc, ih k hrest]

theorem groupedIntChars_filter (n : Nat) :
    (groupedIntChars n).filter keepChar = natToChars n := by
  unfold groupedIntChars natToChars
  by_cases hn : n = 0
  · simp [hn]
    decide
  · rw [if_neg hn, if_neg hn, List.filter_reverse]
    congr 1
    apply groupLE_filter
    intro c hc
    rcases List.mem_map.1 hc with ⟨d, hd, hdc⟩
    rw [← hdc]
    exact (digChar_spec d (digitsAuxLE_lt_ten _ _ d hd)).2.2

theorem takeWhile_digits_append (xs : List Char) (y : Char) (ys : List Char)
    (h : ∀ x ∈ xs, Char.isDigit x = true) (hy : Char.isDigit y = false) :
    (xs ++ y :: ys).takeWhile Char.isDigit = xs
    ∧ (xs ++ y :: ys).dropWhile Char.isDigit = y :: ys := by
  induction xs with
  | nil => simp [List.takeWhile, List.dropWhile, hy]
  | cons x xs ih =>
    have hx := h x (List.mem_cons_self _ _)
    have := ih (fun a ha => h a (List.mem_cons_of_mem _ ha))
    simp [List.takeWhile_cons, List.dropWhile_cons, hx, this.1, this.2]

theorem takeWhile_digits_all (xs : List Char) (h : ∀ x ∈ xs, Char.isDigit x = true) :
    xs.takeWhile Char.isDigit = xs ∧ xs.dropWhile Char.isDigit = [] := by
  induction xs with
  | nil => simp
  | cons x xs ih =>
    have hx := h x (List.mem_cons_self _ _)
    have := ih (fun a ha => h a (List.mem_cons_of_mem _ ha))
    simp [List.takeWhile_cons, List.dropWhile_cons, hx, this.1, this.2]

theorem jsRound_intCast (z : ℤ) : jsRound (z : ℚ) = z := by
  unfold jsRound
  rw [Int.floor_eq_iff]
  constructor
  · push_cast
    linarith
  · push_cast
    linarith

theorem parseFloatQ_decimal_pos (intCs fracCs : List Char)
    (hint : ∀ x ∈ intCs, Char.isDigit x = true) (hne : intCs ≠ [])
    (hfrac : ∀ x ∈ fracCs, Char.isDigit x = true) :
    parseFloatQ (intCs ++ '.' :: fracCs)
      = some ((ofDigitsBE (intCs.map digVal) : ℚ)
          + (ofDigitsBE (fracCs.map digVal) : ℚ) / (10:ℚ) ^ fracCs.length) := by
  have hs : readSign (intCs ++ '.' :: fracCs) = (false, intCs ++ '.' :: fracCs) := by
    obtain ⟨x, t, hx⟩ := List.exists_cons_of_ne_nil hne
    have hd := hint x (by rw [hx]; exact List.mem_cons_self _ _)
    rw [hx, List.cons_append]
    simp [readSign, (isDigit_not_special x hd).1, (isDigit_not_special x hd).2.1]
  have htake := takeWhile_digits_append intCs '.' fracCs hint (by decide)
  have hfr := takeWhile_digits_all fracCs hfrac
  have hlen : ¬ (intCs.length = 0) := fun hz => hne (List.length_eq_zero.1 hz)
  simp only [parseFloatQ, hs, htake.1, htake.2, List.head?_cons, List.tail_cons, hfr.1, hfr.2,
    List.head?_nil, reduceIte]
  simp [hlen, zpow_zero]

theorem parseFloatQ_decimal_neg (intCs fracCs : List Char)
    (hint : ∀ x ∈ intCs, Char.isDigit x = true) (hne : intCs ≠ [])
    (hfrac : ∀ x ∈ fracCs, Char.isDigit x = true) :
    parseFloatQ ('-' :: (intCs ++ '.' :: fracCs))
      = some (-((ofDigitsBE (intCs.map digVal) : ℚ)
          + (ofDigitsBE (fracCs.map digVal) : ℚ) / (10:ℚ) ^ fracCs.length)) := by
  have hs : readSign ('-' :: (intCs ++ '.' :: fracCs)) = (true, intCs ++ '.' :: fracCs) := by
    simp [readSign]
  have htake := takeWhile_digits_append intCs '.' fracCs hint (by decide)
  have hfr := takeWhile_digits_all fracCs hfrac
  have hlen : ¬ (intCs.length = 0) := fun hz => hne (List.length_eq_zero.1 hz)
  simp only [parseFloatQ, hs, htake.1, htake.2, List.head?_cons, List.tail_cons, hfr.1, hfr.2,
    List.head?_nil, reduceIte]
  simp [hlen, zpow_zero]

theorem twoDigits_digits (R : Nat) (h : R < 100) :
    ∀ x ∈ twoDigits R, Char.isDigit x = true := by
  intro x hx
  simp only [twoDigits, List.mem_cons, List.not_mem_nil, or_false] at hx
  rcases hx with h1 | h1 <;> rw [h1]
  · exact (digChar_spec (R / 10) (by omega)).2.1
  · exact (digChar_spec (R % 10) (by omega)).2.1

theorem twoDigits_keep (R : Nat) (h : R < 100) :
    (twoDigits R).filter keepChar = twoDigits R := by
  simp [twoDigits, List.filter_cons, (digChar_spec (R / 10) (by omega)).2.2,
    (digChar_spec (R % 10) (by omega)).2.2]

theorem twoDigits_val (R : Nat) (h : R < 100) :
    ofDigitsBE ((twoDigits R).map digVal) = R := by
  simp only [twoDigits, List.map_cons, List.map_nil,
    (digChar_spec (R / 10) (by omega)).1, (digChar_spec (R % 10) (by omega)).1]
  simp only [ofDigitsBE, List.foldl_cons, List.foldl_nil]
  omega

theorem cleaned_format (c : Int) : cleanedChars (formatCurrency c)
    = (if c < 0 then ['-'] else [])
      ++ (natToChars (c.natAbs / 100) ++ '.' :: twoDigits (c.natAbs % 100)) := by
  have hR : c.natAbs % 100 < 100 := by omega
  have hcore : (groupedIntChars (c.natAbs / 100)
        ++ '.' :: twoDigits (c.natAbs % 100)).filter keepChar
      = natToChars (c.natAbs / 100) ++ '.' :: twoDigits (c.natAbs % 100) := by
    rw [List.filter_append, groupedIntChars_filter, List.filter_cons]
    simp [(by decide : keepChar '.' = true), twoDigits_keep _ hR]
  unfold formatCurrency cleanedChars
  by_cases hc : c < 0
  · rw [if_pos hc, if_pos hc]
    show ('-' :: '$' :: (groupedIntChars (c.natAbs / 100)
        ++ '.' :: twoDigits (c.natAbs % 100))).filter keepChar = _
    rw [List.filter_cons, List.filter_cons]
    simp [(by decide : keepChar '-' = true), (by decide : keepChar '$' = false), hcore]
  · rw [if_neg hc, if_neg hc]
    show ('$' :: (groupedIntChars (c.natAbs / 100)
        ++ '.' :: twoDigits (c.natAbs % 100))).filter keepChar = _
    rw [List.filter_cons]
    simp [(by decide : keepChar '$' = false), hcore]

theorem parseCurrency_of_some {s : String} {q : ℚ}
    (h : parseFloatQ (cleanedChars s) = some q) :
    parseCurrency s = jsRound (q * 100) := by
  unfold parseCurrency
  rw [h]

/-- C9: parsing a formatted integer cents value returns it unchanged
(exact for the exactly-representable range, which is what the integer
model covers), and parseCurrency returns 0 on any string whose cleaned
form does not parse as a number. -/
theorem currency_round_trip :
    (∀ c : Int, parseCurrency (formatCurrency c) = c) ∧
    (∀ s : String, parseFloatQ (cleanedChars s) = none → parseCurrency s = 0) := by
  constructor
  · intro c
    have hR : c.natAbs % 100 < 100 := by omega
    have hD : ∀ x ∈ natToChars (c.natAbs / 100), Char.isDigit x = true :=
      fun x hx => (natToChars_all_digits _ x hx).1
    have hT := twoDigits_digits _ hR
    have hlen2 : (twoDigits (c.natAbs % 100)).length = 2 := rfl
    have hval : (100 : ℚ) * ((c.natAbs / 100 : Nat) : ℚ) + ((c.natAbs % 100 : Nat) : ℚ)
        = ((c.natAbs : ℚ)) := by
      have hdm := Nat.div_add_mod c.natAbs 100
      have hcast := congrArg (fun k : Nat => (k : ℚ)) hdm
      push_cast at hcast
      linarith
    by_cases hc : c < 0
    · have hps : parseFloatQ (cleanedChars (formatCurrency c))
          = some (-(((c.natAbs / 100 : Nat) : ℚ)
            + ((c.natAbs % 100 : Nat) : ℚ)
              / (10:ℚ) ^ (twoDigits (c.natAbs % 100)).length)) := by
        rw [cleaned_format c, if_pos hc, List.singleton_append,
          parseFloatQ_decimal_neg _ _ hD (natToChars_ne_nil _) hT,
          ofDigitsBE_natToChars, twoDigits_val _ hR]
      rw [parseCurrency_of_some hps]
      have habs : ((c.natAbs : ℚ)) = -((c : ℚ)) := by
        have hz : (c.natAbs : ℤ) = -c := by omega
        calc ((c.natAbs : ℚ)) = (((c.natAbs : ℤ) : ℚ)) := (Int.cast_natCast _).symm
          _ = ((-c : ℤ) : ℚ) := by rw [hz]
          _ = -((c : ℚ)) := by push_cast; ring
      have hq : (-(((c.natAbs / 100 : Nat) : ℚ)
            + ((c.natAbs % 100 : Nat) : ℚ)
              / (10:ℚ) ^ (twoDigits (c.natAbs % 100)).length)) * 100 = ((c : ℚ)) := by
        rw [hlen2]
        field_simp
        linarith [hval, habs]
      rw [hq]
      exact jsRound_intCast c
    · have hps : parseFloatQ (cleanedChars (formatCurrency c))
          = some (((c.natAbs / 100 : Nat) : ℚ)
            + ((c.natAbs % 100 : Nat) : ℚ)
              / (10:ℚ) ^ (twoDigits (c.natAbs % 100)).length) := by
        rw [cleaned_format c, if_neg hc, List.nil_append,
          parseFloatQ_decimal_pos _ _ hD (natToChars_ne_nil _) hT,
          ofDigitsBE_natToChars, twoDigits_val _ hR]
      rw [parseCurrency_of_some hps]
      have habs : ((c.natAbs : ℚ)) = ((c : ℚ)) := by
        have hz : (c.natAbs : ℤ) = c := by omega
        calc ((c.natAbs : ℚ)) = (((c.natAbs : ℤ) : ℚ)) := (Int.cast_natCast _).symm
          _ = ((c : ℤ) : ℚ) := by rw [hz]
          _ = ((c : ℚ)) := by push_cast; ring
      have hq : ((((c.natAbs / 100 : Nat) : ℚ)
            + ((c.natAbs % 100 : Nat) : ℚ)
              / (10:ℚ) ^ (twoDigits (c.natAbs % 100)).length)) * 100 = ((c : ℚ)) := by
        rw [hlen2]
        field_simp
        linarith [hval, habs]
      rw [hq]
      exact jsRound_intCast c
  · intro s h
    unfold parseCurrency
    rw [h]

/-- C9 witness: a concrete round trip and a concrete non-numeric input
parsed as 0. -/
theorem currency_round_trip_witness :
    parseCurrency (formatCurrency (-1234567)) = -1234567 ∧ parseCurrency ("abc") = 0 :=
  ⟨currency_round_trip.1 (-1234567), currency_round_trip.2 ("abc") (by decide)⟩
